import Mathlib

/-!
Verification development for the UltRank tiering engine
(`ultrank_tiering.py` of kenniky/smashgg-japanese-romanizer).

The Python module is shallowly embedded below.  Conventions:

* Python `int` is modelled as `Int`; counters that are provably
  non-negative are `Nat`.
* `datetime.date` is modelled as `Int` (ordinal day number); only the
  order on dates matters to the code.
* Python `str.lower()` is modelled with `pyLower` (character-wise
  lowering), and string slicing `[0:2]` with `pyTakeTwo`.
* Python dictionaries are modelled as insertion-ordered association
  lists (`dictSet` / `dictGet` / key membership), matching CPython's
  ordered-dict semantics for iteration over `.values()`.
* The module-level reference data (`scored_players`, `scored_tags`,
  `region_mults`, loaded from CSV files at import time) is passed
  explicitly as an `Env` value.
* Collaborator I/O (start.gg queries, Nominatim geocoding) is passed in
  as explicit data: functions that in Python read `self.…` fields
  populated from network responses here take those fields as arguments.
* Fallible paths (Python exceptions / `None` attribute access) are
  modelled with `Option`.
-/

/-- Dates (`datetime.date`) as ordinal day numbers. -/
abbrev Date := Int

/-- Registry identity keys: `read_players` keys `scored_players` either by the
numeric start.gg id (`int(row['Start.gg Num ID'])`) or, when that cell is
empty, by the player's tag string.  Python `==` between an `int` and a `str`
is `False`, which the disjoint constructors reproduce. -/
inductive Ident where
  | num (n : Int)
  | name (s : String)
deriving DecidableEq, Repr

/-- Character-wise lowering; model of Python `str.lower()` for the
(ASCII) tags the code compares. -/
def pyLower (s : String) : String := String.mk (s.data.map Char.toLower)

/-- First two characters of a string; model of the Python slice `[0:2]`
used for Japanese postal codes. -/
def pyTakeTwo (s : String) : String := String.mk (s.data.take 2)

/-- Lexicographic less-or-equal on character lists, mirroring Python's
string ordering on the code points involved. -/
def charLe : List Char → List Char → Bool
  | [], _ => true
  | _ :: _, [] => false
  | a :: as, b :: bs =>
    if a.val < b.val then true
    else if b.val < a.val then false
    else charLe as bs

/-- Stable insertion of an element in front of the first existing element
`b` with `le a b`. -/
def insertLe {α : Type} (le : α → α → Bool) (a : α) : List α → List α
  | [] => [a]
  | b :: bs => if le a b then a :: b :: bs else b :: insertLe le a bs

/-- Stable sort (insertion sort) with respect to a boolean comparison.
Python `list.sort` is a stable sort, and for a fixed total preorder any
two stable sorts of a list coincide, so this models `list.sort` (with
`reverse=True` expressed by flipping the key comparison) exactly. -/
def pySort {α : Type} (le : α → α → Bool) : List α → List α
  | [] => []
  | a :: as => insertLe le a (pySort le as)

/-- Wrapper class storing player ids and tags (`class Entrant`).
Equality is by both fields, as in the Python `__eq__`. -/
structure Entrant where
  id_ : Int
  tag : String
deriving DecidableEq, Repr

/-- Address breakdown returned by Nominatim reverse geocoding.  The Python
code reads the dictionary with `.get(key, default)`; a `none` field models
an absent key. -/
structure Address where
  country_code : Option String := none
  isoLvl4 : Option String := none
  isoLvl3 : Option String := none
  county : Option String := none
  city : Option String := none
  postcode : Option String := none
deriving DecidableEq, Repr

/-- One phase row of the start.gg phase-list response (fields requested by
`phase_list_query`: `id`, `name`, `state`, `isExhibition`). -/
structure Phase where
  id : Int
  name : String
  state : String
  isExhibition : Bool
deriving DecidableEq, Repr

/-- Snapshot of a `Tournament` instance at the point where
`calculate_tier` runs: the fields populated by `__init__` via
`gather_entrant_counts`, `gather_location_info` and
`retrieve_start_time`. -/
structure Tournament where
  event_slug : String
  is_invitational : Bool
  address : Address
  start_time : Date
  participants : List Entrant
  dq_list : List (Int × Entrant × Nat)
  total_entrants : Nat
  total_dqs : Int
  phases : List String
deriving Repr

/-- Stores scores for players (`class PlayerValue`). -/
structure PlayerValue where
  id_ : Ident
  tag : String
  points : Int
  note : String
  invitational_val : Int
  start_time : Option Date
  end_time : Option Date
deriving DecidableEq, Repr

/-- Python `PlayerValue.is_within_timeframe`: reject when
`time < start_time` (when set) or `time >= end_time` (when set). -/
def PlayerValue.is_within_timeframe (v : PlayerValue) (time : Date) : Bool :=
  if (match v.start_time with | some s => decide (time < s) | none => false) then false
  else if (match v.end_time with | some e => decide (time ≥ e) | none => false) then false
  else true

/-- Stores multiple scores for players (`class PlayerValueGroup`).
`other_tags` is stored lowercased, as in `__init__`. -/
structure PlayerValueGroup where
  id_ : Ident
  tag : String
  invitational_val : Int
  values : List PlayerValue
  other_tags : List String
deriving Repr

/-- Python `PlayerValueGroup.add_value`: append a new `PlayerValue`
carrying the group's id, tag and invitational value, then re-sort the
list descending by points (`list.sort` is stable; `reverse=True` with a
key is a stable sort by the reversed comparison). -/
def PlayerValueGroup.add_value (g : PlayerValueGroup) (points : Int) (note : String)
    (start_time end_time : Option Date) : PlayerValueGroup :=
  let vs := g.values ++
    [{ id_ := g.id_, tag := g.tag, points := points, note := note,
       invitational_val := g.invitational_val,
       start_time := start_time, end_time := end_time }]
  { g with values := pySort (fun a b => decide (b.points ≤ a.points)) vs }

/-- Python `PlayerValueGroup.retrieve_value`: return the first stored
value valid at the tournament's start time (the list is kept sorted
descending by points). -/
def PlayerValueGroup.retrieve_value (g : PlayerValueGroup) (tournament : Tournament) :
    Option PlayerValue :=
  g.values.find? (fun value => value.is_within_timeframe tournament.start_time)

/-- Python `PlayerValueGroup.match_tag`: case-insensitive comparison with
the canonical tag or any alternate tag. -/
def PlayerValueGroup.match_tag (g : PlayerValueGroup) (tag : String) : Bool :=
  decide (pyLower tag = pyLower g.tag) || g.other_tags.contains (pyLower tag)

/-- Stores region multipliers (`class RegionValue`). -/
structure RegionValue where
  country_code : String := ""
  iso2 : String := ""
  county : String := ""
  city : String := ""
  jp_postal : String := ""
  multiplier : Int := 1
  entrant_floor : Int := 64
  score_floor : Int := 250
  note : String := ""
deriving DecidableEq, Repr

/-- Python `RegionValue.match` (the name `match` is a Lean keyword, hence
`matchScore`): specificity of a rule for a Nominatim address.  Mirrors the
source line by line, including the `.get` defaults (`''` everywhere,
`'XX'` for the postcode). -/
def RegionValue.matchScore (r : RegionValue) (address : Address) : Nat :=
  if r.country_code = "" then 1
  else if (address.country_code.getD "") = r.country_code then
    let m : Nat := 2
    let m : Nat :=
      if r.iso2 = "" then m + 1
      else if decide ((address.isoLvl4.getD "") = r.iso2) ||
          decide ((address.isoLvl3.getD "") = r.iso2) then
        let m := m + 2
        if decide (r.county = "") && decide (r.city = "") then m + 1
        else if decide (r.county ≠ "") && decide ((address.county.getD "") = r.county) then m + 2
        else if decide (r.city ≠ "") && decide ((address.city.getD "") = r.city) then m + 2
        else m
      else m
    let m : Nat :=
      if r.country_code = "jp" then
        let jp_postal := pyTakeTwo (address.postcode.getD "XX")
        if r.jp_postal = "" then m + 1
        else if jp_postal = r.jp_postal then m + 2
        else m
      else m
    m
  else 0

/-- Stores a counted player value with additional data
(`class CountedValue`); `tag` and `id_` are derived fields in Python
(`self.tag = player_value.tag`, `self.id_ = player_value.id_`). -/
structure CountedValue where
  player_value : PlayerValue
  points : Int
  alt_tag : String
deriving DecidableEq, Repr

/-- Derived field `CountedValue.id_`. -/
def CountedValue.id_ (cv : CountedValue) : Ident := cv.player_value.id_

/-- Derived field `CountedValue.tag`. -/
def CountedValue.tag (cv : CountedValue) : String := cv.player_value.tag

/-- Python `PotentialMatchWithDqs` instance fields. -/
structure PotentialMatchWithDqs where
  tag : String
  id_ : Int
  points : Int
  note : String
  actual_tag : String
  dqs : Nat
deriving DecidableEq, Repr

/-- Python `PotentialMatchWithDqs.__init__`: `actual_tag` defaults to
`tag` when the passed value is the empty string. -/
def mkPotentialMatchWithDqs (tag : String) (id_ : Int) (points : Int) (note : String)
    (actual_tag : String) (dqs : Nat) : PotentialMatchWithDqs :=
  { tag := tag, id_ := id_, points := points, note := note,
    actual_tag := if actual_tag = "" then tag else actual_tag, dqs := dqs }

/-- Payload of a `DisqualificationValue`: `max_potential_score` inspects
it with `isinstance(dq.value, CountedValue)`, so the value can be either
a `CountedValue` or a bare `PlayerValue`. -/
inductive DqInner where
  | counted (cv : CountedValue)
  | plain (pv : PlayerValue)
deriving DecidableEq, Repr

/-- Python attribute `.points` on a `DqInner` payload. -/
def DqInner.points : DqInner → Int
  | .counted cv => cv.points
  | .plain pv => pv.points

/-- Python attribute `.id_` on a `DqInner` payload. -/
def DqInner.idOf : DqInner → Ident
  | .counted cv => cv.id_
  | .plain pv => pv.id_

/-- Stores a player value with DQ count (`class DisqualificationValue`). -/
structure DisqualificationValue where
  value : DqInner
  dqs : Nat
deriving DecidableEq, Repr

/-- Element of `TournamentTieringResult.potential`: `max_potential_score`
branches on `isinstance(pot, DisqualificationValue)`, so the list can
mix `DisqualificationValue` and `PotentialMatchWithDqs` objects. -/
inductive PotentialEntry where
  | dqval (d : DisqualificationValue)
  | pmatch (m : PotentialMatchWithDqs)
deriving DecidableEq, Repr

/-- Python `NUM_PLAYERS_FLOOR`. -/
def NUM_PLAYERS_FLOOR : Nat := 2

/-- Snapshot held by `class TournamentTieringResult` (the lazily cached
`max_score` and the externally fetched display names are omitted:
`max_potential_score` below is a pure function, so caching is
observationally irrelevant). -/
structure TournamentTieringResult where
  slug : String
  score : Int
  entrants : Nat
  region : RegionValue
  values : List CountedValue
  dqs : List DisqualificationValue
  potential : List PotentialEntry
  is_invitational : Bool
  dq_count : Int
  phases : List String
deriving Repr

/-- Lookup with default in an insertion-ordered dictionary
(Python `d.get(k, dflt)`). -/
def dictGet (d : List (Ident × Int)) (k : Ident) (dflt : Int) : Int :=
  match d.find? (fun kv => decide (kv.1 = k)) with
  | some kv => kv.2
  | none => dflt

/-- Update / insert in an insertion-ordered dictionary
(Python `d[k] = v`): an existing key keeps its position, a new key is
appended. -/
def dictSet (d : List (Ident × Int)) (k : Ident) (v : Int) : List (Ident × Int) :=
  if d.any (fun kv => decide (kv.1 = k)) then
    d.map (fun kv => if kv.1 = k then (k, v) else kv)
  else d ++ [(k, v)]

/-- Python `TournamentTieringResult.max_potential_score` (without the
`self.max_score` memoisation, which only caches this pure value). -/
def TournamentTieringResult.max_potential_score (r : TournamentTieringResult) : Int :=
  let potential_score := r.score
  let potential_player_scores : List (Ident × Int) :=
    r.potential.foldl (fun d pot =>
      match pot with
      | PotentialEntry.dqval dv =>
          dictSet d dv.value.idOf (max dv.value.points (dictGet d dv.value.idOf 0))
      | PotentialEntry.pmatch pm =>
          dictSet d (Ident.num pm.id_) (max pm.points (dictGet d (Ident.num pm.id_) 0))) []
  let dq_scores : List (Ident × Int) :=
    r.dqs.foldl (fun d dq =>
      match dq.value with
      | DqInner.counted cv => dictSet d cv.id_ cv.points
      | DqInner.plain pv => dictSet d pv.id_ (max pv.points (dictGet d pv.id_ 0))) []
  let s1 := potential_player_scores.foldl (fun s kv => s + kv.2) potential_score
  dq_scores.foldl (fun s kv => s + kv.2) s1

/-- Python `TournamentTieringResult.should_count_strict`. -/
def TournamentTieringResult.should_count_strict (r : TournamentTieringResult) : Bool :=
  decide ((r.entrants : Int) ≥ r.region.entrant_floor) ||
    (decide (r.score ≥ r.region.score_floor) && decide (r.values.length ≥ NUM_PLAYERS_FLOOR))

/-- Python `TournamentTieringResult.should_count`. -/
def TournamentTieringResult.should_count (r : TournamentTieringResult) : Bool :=
  decide ((r.entrants : Int) ≥ r.region.entrant_floor) ||
    (decide (r.max_potential_score ≥ r.region.score_floor) &&
      decide (r.values.length + r.potential.length + r.dqs.length ≥ NUM_PLAYERS_FLOOR))

/-- Module-level reference data of `ultrank_tiering.py`: `scored_players`
(dict id → group, in insertion order), `scored_tags` (lowercased tag
set) and `region_mults`. -/
structure Env where
  scored_players : List PlayerValueGroup
  scored_tags : List String
  region_mults : List RegionValue

/-- Key-membership test `participant.id_ in self.dq_list`. -/
def dqContains (dq_list : List (Int × Entrant × Nat)) (pid : Int) : Bool :=
  dq_list.any (fun kv => decide (kv.1 = pid))

/-- Dictionary lookup `scored_players[pid]` together with the membership
test `pid in scored_players` (keys of `scored_players` are the groups'
own `id_` fields, cf. `read_players`). -/
def lookupGroup (scored_players : List PlayerValueGroup) (pid : Int) :
    Option PlayerValueGroup :=
  scored_players.find? (fun g => decide (g.id_ = Ident.num pid))

/-- The region-selection loop of `calculate_tier` (lines building
`best_region` / `best_match`): keep the first rule attaining the highest
specificity; returns the pair `(best_region, best_match)`. -/
def selectRegion (region_mults : List RegionValue) (address : Address) :
    Option RegionValue × Nat :=
  region_mults.foldl
    (fun best region =>
      let m := region.matchScore address
      if best.2 < m then (some region, m) else best)
    (none, 0)

/-- Running state of the first participant loop of `calculate_tier`. -/
structure ScoreState where
  total_score : Int
  valued_participants : List CountedValue
  potential_matches : List PotentialMatchWithDqs
deriving Repr

/-- Inner tag-fallback loop shared by both loops of `calculate_tier`
(`for player_value_group in scored_players.values(): …`): collect a
potential match for every group whose tags match and which has a value
valid on the event date. -/
def tagFallback (env : Env) (t : Tournament) (participant : Entrant) (num_dqs : Nat) :
    List PotentialMatchWithDqs :=
  env.scored_players.foldl (fun acc player_value_group =>
    if player_value_group.match_tag participant.tag then
      match player_value_group.retrieve_value t with
      | some player_value =>
        let score := player_value.points +
          (if t.is_invitational then player_value.invitational_val else 0)
        acc ++ [mkPotentialMatchWithDqs participant.tag participant.id_ score
          player_value.note player_value.tag num_dqs]
      | none => acc
    else acc) []

/-- Body of the first loop of `calculate_tier`
(`for participant in self.participants`). -/
def processParticipant (env : Env) (t : Tournament) (st : ScoreState)
    (participant : Entrant) : ScoreState :=
  if dqContains t.dq_list participant.id_ then
    st
  else
    match lookupGroup env.scored_players participant.id_ with
    | some group =>
      match group.retrieve_value t with
      | some player_value =>
        let score := player_value.points +
          (if t.is_invitational then player_value.invitational_val else 0)
        { st with
          total_score := st.total_score + score,
          valued_participants := st.valued_participants ++
            [{ player_value := player_value, points := score, alt_tag := participant.tag }] }
      | none => st
    | none =>
      if env.scored_tags.contains (pyLower participant.tag) then
        { st with potential_matches := st.potential_matches ++ tagFallback env t participant 0 }
      else st

/-- Body of the second loop of `calculate_tier`
(`for participant, num_dqs in self.dq_list.values()`); the state is the
pair `(participants_with_dqs, potential_matches)` — the realized score
is not touched by this loop in the source. -/
def processDq (env : Env) (t : Tournament)
    (st : List DisqualificationValue × List PotentialMatchWithDqs)
    (kv : Int × Entrant × Nat) :
    List DisqualificationValue × List PotentialMatchWithDqs :=
  let participant := kv.2.1
  let num_dqs := kv.2.2
  match lookupGroup env.scored_players participant.id_ with
  | some group =>
    match group.retrieve_value t with
    | some player_value =>
      let score := player_value.points +
        (if t.is_invitational then player_value.invitational_val else 0)
      (st.1 ++ [{ value := DqInner.counted
                    { player_value := player_value, points := score,
                      alt_tag := participant.tag },
                  dqs := num_dqs }], st.2)
    | none => st
  | none =>
    if env.scored_tags.contains (pyLower participant.tag) then
      (st.1, st.2 ++ tagFallback env t participant num_dqs)
    else st

/-- Final sort `valued_participants.sort(reverse=True, key=points)`. -/
def sortValued (l : List CountedValue) : List CountedValue :=
  pySort (fun a b => decide (b.points ≤ a.points)) l

/-- Final sort of the DQ list, descending by `(dqs, value.points)`. -/
def sortDqs (l : List DisqualificationValue) : List DisqualificationValue :=
  pySort (fun a b =>
    decide (b.dqs < a.dqs) || (decide (b.dqs = a.dqs) && decide (b.value.points ≤ a.value.points))) l

/-- Final sort of potential matches, ascending by `(dqs, tag)`. -/
def sortPotential (l : List PotentialMatchWithDqs) : List PotentialMatchWithDqs :=
  pySort (fun a b =>
    decide (a.dqs < b.dqs) || (decide (a.dqs = b.dqs) && charLe a.tag.data b.tag.data)) l

/-- Python `Tournament.calculate_tier` (without the `self.tier`
memoisation of the same pure value).  When no region rule matches,
`best_region` stays `None` and the Python code raises an
`AttributeError` at `best_region.multiplier`; that failure is the `none`
result. -/
def Tournament.calculate_tier (env : Env) (t : Tournament) :
    Option TournamentTieringResult :=
  match selectRegion env.region_mults t.address with
  | (none, _) => none
  | (some best_region, _) =>
    let total_score : Int := (t.total_entrants : Int) * best_region.multiplier
    let st := t.participants.foldl (processParticipant env t)
      { total_score := total_score, valued_participants := [], potential_matches := [] }
    let dqst := t.dq_list.foldl (processDq env t) ([], st.potential_matches)
    some
      { slug := t.event_slug
        score := st.total_score
        entrants := t.total_entrants
        region := best_region
        values := sortValued st.valued_participants
        dqs := sortDqs dqst.1
        potential := (sortPotential dqst.2).map PotentialEntry.pmatch
        is_invitational := t.is_invitational
        dq_count := t.total_dqs
        phases := t.phases }

/-- Python `check_phase_completed` applied to the phase rows of the
response: some phase has `state == 'COMPLETED'` and is not an
exhibition. -/
def check_phase_completed (phases : List Phase) : Bool :=
  phases.any (fun phase => decide (phase.state = "COMPLETED") && !phase.isExhibition)

/-- Python `collect_phases`: the non-exhibition phases. -/
def collect_phases (phases : List Phase) : List Phase :=
  phases.filter (fun phase => !phase.isExhibition)

/-- Output fields of `Tournament.gather_entrant_counts`. -/
structure GatherResult where
  total_dqs : Int
  participants : List Entrant
  dq_list : List (Int × Entrant × Nat)
  total_entrants : Nat
  phases : List Phase
deriving Repr

/-- Python `Tournament.gather_entrant_counts`.  The collaborator calls
are passed as data: `phases` is the phase-list response consumed by
`check_phase_completed` / `collect_phases`, `dqData` is the pair
returned by `get_dqs`, and `roster` is the entrant set returned by
`get_entrants`.  NOTE the final unconditional `self.total_dqs = -1`
(source line 389, under the comment `# Comment out if subtracting
generic entrant dqs`), which overwrites the tally computed in the
progressed branch. -/
def gather_entrant_counts (phases : List Phase)
    (dqData : List (Int × Entrant × Nat) × List Entrant)
    (roster : List Entrant) : GatherResult :=
  let event_progressed := check_phase_completed phases
  if event_progressed then
    let dq_list := dqData.1
    let participants := dqData.2
    let participant_ids := participants.map (fun part => part.id_)
    let total_dqs : Nat := dq_list.foldl
      (fun acc kv => if participant_ids.contains kv.1 then acc else acc + 1) 0
    let total_entrants := participants.length + total_dqs
    { total_dqs := -1, participants := participants, dq_list := dq_list,
      total_entrants := total_entrants, phases := collect_phases phases }
  else
    { total_dqs := -1, participants := roster, dq_list := [],
      total_entrants := roster.length, phases := [] }

/-- Retry loop of `Tournament.gather_location_info` around
`geo.reverse(…)`: five attempts (`for i in range(5)`), each either
succeeding with an address or raising (modelled as `none`); the first
success breaks the loop, and a failed attempt is caught and ignored
(`except Exception: … pass`).  When all five attempts fail the loop
simply ends: the result is `none` — `self.address` is left unset and no
error is raised. -/
def gather_location_info (attempts : Nat → Option Address) : Option Address :=
  (List.range 5).findSome? attempts

/-! Spec-side definitions, used to compare the code against the
specification's wording. -/

/-- Modelled from the spec (§3): a value's half-open validity window
`[valid_from, valid_until)` contains a date, a missing bound meaning
unbounded on that side. -/
def windowContains (v : PlayerValue) (d : Date) : Prop :=
  (∀ s, v.start_time = some s → s ≤ d) ∧ (∀ e, v.end_time = some e → d < e)

/-- Modelled from the spec (§4.2 and claim C4): the specificity computation
as the specification words it — after a country match, the county/city
step is evaluated whenever the subdivision requirement matched **or was a
wildcard**.  For comparison with the source's `RegionValue.matchScore`. -/
def RegionValue.matchClaimed (r : RegionValue) (address : Address) : Nat :=
  if r.country_code = "" then 1
  else if (address.country_code.getD "") = r.country_code then
    let subMatched := decide ((address.isoLvl4.getD "") = r.iso2) ||
      decide ((address.isoLvl3.getD "") = r.iso2)
    let subPart : Nat := if r.iso2 = "" then 1 else if subMatched then 2 else 0
    let ccPart : Nat :=
      if decide (r.iso2 = "") || subMatched then
        if decide (r.county = "") && decide (r.city = "") then 1
        else if decide (r.county ≠ "") && decide ((address.county.getD "") = r.county) then 2
        else if decide (r.city ≠ "") && decide ((address.city.getD "") = r.city) then 2
        else 0
      else 0
    let jpPart : Nat :=
      if r.country_code = "jp" then
        let jp_postal := pyTakeTwo (address.postcode.getD "XX")
        if r.jp_postal = "" then 1
        else if jp_postal = r.jp_postal then 2
        else 0
      else 0
    2 + subPart + ccPart + jpPart
  else 0

/-- The amended description of the specificity computation: identical to
`RegionValue.matchClaimed` except that the county/city step is reachable
only through the exact subdivision match (+2) branch; under a subdivision
wildcard only +1 is added and the rule's county/city fields are ignored. -/
def RegionValue.matchAmended (r : RegionValue) (address : Address) : Nat :=
  if r.country_code = "" then 1
  else if (address.country_code.getD "") = r.country_code then
    let subMatched := decide ((address.isoLvl4.getD "") = r.iso2) ||
      decide ((address.isoLvl3.getD "") = r.iso2)
    let subPart : Nat := if r.iso2 = "" then 1 else if subMatched then 2 else 0
    let ccPart : Nat :=
      if decide (r.iso2 ≠ "") && subMatched then
        if decide (r.county = "") && decide (r.city = "") then 1
        else if decide (r.county ≠ "") && decide ((address.county.getD "") = r.county) then 2
        else if decide (r.city ≠ "") && decide ((address.city.getD "") = r.city) then 2
        else 0
      else 0
    let jpPart : Nat :=
      if r.country_code = "jp" then
        let jp_postal := pyTakeTwo (address.postcode.getD "XX")
        if r.jp_postal = "" then 1
        else if jp_postal = r.jp_postal then 2
        else 0
      else 0
    2 + subPart + ccPart + jpPart
  else 0

/-- Dictionary key used by `max_potential_score` for a potential entry. -/
def PotentialEntry.key : PotentialEntry → Ident
  | .dqval dv => dv.value.idOf
  | .pmatch m => Ident.num m.id_

/-- Points carried by a potential entry, as read by
`max_potential_score`. -/
def PotentialEntry.pointsOf : PotentialEntry → Int
  | .dqval dv => dv.value.points
  | .pmatch m => m.points

/-- Distinct elements of a list, in order of first appearance (the key
order a Python dict ends up with). -/
def firstKeys (ks : List Ident) : List Ident :=
  ks.foldl (fun acc k => if acc.any (fun k' => decide (k' = k)) then acc else acc ++ [k]) []

/-- Modelled from the spec (claim C6): the single best candidate value for
one player id among the potential entries, floored at 0 (the dictionary's
`get(id, 0)` default). -/
def bestPotentialFor (potential : List PotentialEntry) (k : Ident) : Int :=
  potential.foldl (fun acc pe => if pe.key = k then max pe.pointsOf acc else acc) 0

/-- Modelled from the spec (claim C6): the surplus contributed by one
DQ'd valued entry in `max_potential_score`. -/
def dqContrib (dq : DisqualificationValue) : Int :=
  match dq.value with
  | .counted cv => cv.points
  | .plain pv => max pv.points 0

/-- Sum of a list of integers. -/
def intSum : List Int → Int
  | [] => 0
  | x :: l => x + intSum l

/-- The step building `potential_player_scores` in `max_potential_score`,
named for use in proofs. -/
def potStep (d : List (Ident × Int)) (pot : PotentialEntry) : List (Ident × Int) :=
  match pot with
  | PotentialEntry.dqval dv =>
      dictSet d dv.value.idOf (max dv.value.points (dictGet d dv.value.idOf 0))
  | PotentialEntry.pmatch pm =>
      dictSet d (Ident.num pm.id_) (max pm.points (dictGet d (Ident.num pm.id_) 0))

/-- The step building `dq_scores` in `max_potential_score`, named for use
in proofs. -/
def dqStep (d : List (Ident × Int)) (dq : DisqualificationValue) : List (Ident × Int) :=
  match dq.value with
  | DqInner.counted cv => dictSet d cv.id_ cv.points
  | DqInner.plain pv => dictSet d pv.id_ (max pv.points (dictGet d pv.id_ 0))

/-- The `potential_player_scores` dictionary of `max_potential_score`. -/
def potDict (potential : List PotentialEntry) : List (Ident × Int) :=
  potential.foldl potStep []

/-- The `dq_scores` dictionary of `max_potential_score`. -/
def dqDict (dqs : List DisqualificationValue) : List (Ident × Int) :=
  dqs.foldl dqStep []

/-- Best candidate points for id `k` among potential entries, folded from
an arbitrary starting value (generalizes `bestPotentialFor`). -/
def bestFrom (potential : List PotentialEntry) (b : Int) (k : Ident) : Int :=
  potential.foldl (fun acc pe => if pe.key = k then max pe.pointsOf acc else acc) b

/-! Concrete fixtures used by witnesses and counterexamples. -/

/-- A trivial result, used only as the `Option.getD` default when naming
the value inside a `some` returned by `calculate_tier`. -/
def emptyResult : TournamentTieringResult :=
  { slug := "", score := 0, entrants := 0, region := {}, values := [], dqs := [],
    potential := [], is_invitational := false, dq_count := -1, phases := [] }

/-- A player value with no validity window (fixture helper). -/
def mkValue (id_ : Ident) (tag : String) (points : Int) : PlayerValue :=
  { id_ := id_, tag := tag, points := points, note := "", invitational_val := 0,
    start_time := none, end_time := none }

/-- A one-value registry group (fixture helper). -/
def simpleGroup (n : Int) (tag : String) (points : Int) : PlayerValueGroup :=
  { id_ := Ident.num n, tag := tag, invitational_val := 0,
    values := [mkValue (Ident.num n) tag points], other_tags := [] }

/-- A minimal tournament snapshot (fixture helper): fallback-matching
address, start date 0. -/
def baseTourn : Tournament :=
  { event_slug := "t", is_invitational := false, address := {}, start_time := 0,
    participants := [], dq_list := [], total_entrants := 0, total_dqs := -1, phases := [] }

/-- Claim C4 fixture: a rule with a subdivision wildcard but a populated
county field. -/
def regionC4 : RegionValue := { country_code := "us", county := "Foo" }

/-- Claim C4 fixture: an address in the rule's country whose county
matches the rule's. -/
def addressC4 : Address := { country_code := some "us", county := some "Foo" }

/-- Claim C7 fixture: one completed non-exhibition phase. -/
def phasesC7 : List Phase :=
  [{ id := 1, name := "Bracket", state := "COMPLETED", isExhibition := false }]

/-- Claim C7 fixture: `get_dqs` output with one disqualified id (5) that
is not among the genuine participants (only id 1 is). -/
def dqDataC7 : List (Int × Entrant × Nat) × List Entrant :=
  ([(5, ⟨5, "Q"⟩, 1)], [⟨1, "a"⟩])

/-- Claim C1 fixture: registry group whose id (99) differs from the DQ'd
entrant's id (5) but whose tag matches it. -/
def groupZeta : PlayerValueGroup := simpleGroup 99 "Zeta" 40

/-- Claim C1 fixture environment. -/
def envDqTag : Env :=
  { scored_players := [groupZeta], scored_tags := ["zeta"], region_mults := [{}] }

/-- Claim C1 fixture: the entrant with id 5 and tag `Zeta` is disqualified
(2 DQs) and appears in the DQ map. -/
def tournDqTag : Tournament :=
  { baseTourn with
    participants := [⟨1, "alpha"⟩],
    dq_list := [(5, ⟨5, "Zeta"⟩, 2)],
    total_entrants := 2 }

/-- Claim C5 fixture: registry with two 125-point players and one player
with negative points. -/
def envNeg : Env :=
  { scored_players := [simpleGroup 1 "A" 125, simpleGroup 2 "B" 125, simpleGroup 7 "Neg" (-100)],
    scored_tags := ["a", "b", "neg"], region_mults := [{ score_floor := 260 }] }

/-- Claim C5 fixture: both valued players entered, the negative-point
player is disqualified; 10 entrants. -/
def tournNeg : Tournament :=
  { baseTourn with
    participants := [⟨1, "A"⟩, ⟨2, "B"⟩],
    dq_list := [(7, ⟨7, "Neg"⟩, 1)],
    total_entrants := 10 }

/-- Claim C6 counterexample fixture: a result whose only potential match
carries 0 points. -/
def resZeroPot : TournamentTieringResult :=
  { emptyResult with
    score := 100,
    potential := [PotentialEntry.pmatch
      { tag := "x", id_ := 9, points := 0, note := "", actual_tag := "x", dqs := 0 }] }

/-- Claim C2 fixture: a group with a 50-point value valid on `[10, 20)`
and an unwindowed 30-point value, sorted descending by points. -/
def groupWindowed : PlayerValueGroup :=
  { id_ := Ident.num 11, tag := "W", invitational_val := 0,
    values := [
      { id_ := Ident.num 11, tag := "W", points := 50, note := "", invitational_val := 0,
        start_time := some 10, end_time := some 20 },
      { id_ := Ident.num 11, tag := "W", points := 30, note := "", invitational_val := 0,
        start_time := none, end_time := none }],
    other_tags := [] }

/-- Claim C2 fixture: a tournament dated 25, past the windowed value's
`valid_until`. -/
def tournAt25 : Tournament := { baseTourn with start_time := 25 }

/-- The step of the region-selection fold of `calculate_tier`, named for
use in proofs (`selectRegion` folds exactly this step). -/
def selStep (address : Address) (best : Option RegionValue × Nat) (region : RegionValue) :
    Option RegionValue × Nat :=
  if best.2 < region.matchScore address then (some region, region.matchScore address) else best

/-- Claim C8 witness fixture: an environment whose only rule is the
universal fallback. -/
def envFallbackOnly : Env :=
  { scored_players := [], scored_tags := [], region_mults := [{}] }

/-- Claim C3 witness fixture: fallback rule first, then a more specific
country rule. -/
def envTwoRules : Env :=
  { scored_players := [], scored_tags := [],
    region_mults := [{}, { country_code := "us", multiplier := 2 }] }

/-- Claim C3 witness fixture: a tournament whose address matches the
country rule. -/
def tournUs : Tournament := { baseTourn with address := { country_code := some "us" } }

/-- Claim C3 witness fixture: the result computed for `tournUs`. -/
def resTwoRules : TournamentTieringResult :=
  (Tournament.calculate_tier envTwoRules tournUs).getD emptyResult

/-- Claim C10 fixture: a registry group (id 21) whose only value expires
before the event date. -/
def groupExpired : PlayerValueGroup :=
  { id_ := Ident.num 21, tag := "Gone", invitational_val := 0,
    values := [{ id_ := Ident.num 21, tag := "Gone", points := 70, note := "",
                 invitational_val := 0, start_time := some 0, end_time := some 5 }],
    other_tags := [] }

/-- Claim C10 fixture: environment whose tag set does contain the
entrant's lowercased tag, so only the `elif` structure keeps the tag
fallback from firing. -/
def envExpired : Env :=
  { scored_players := [groupExpired], scored_tags := ["gone"], region_mults := [{}] }

/-- Claim C10 fixture: the event is dated 10, past the value's window. -/
def tournExpired : Tournament :=
  { baseTourn with
    start_time := 10,
    participants := [⟨21, "Gone"⟩],
    total_entrants := 1 }

/-- Claim C1 witness fixture: a registry group whose id 31 matches a
disqualified entrant. -/
def groupP : PlayerValueGroup := simpleGroup 31 "P" 20

/-- Claim C1 witness fixture environment. -/
def envWDq : Env :=
  { scored_players := [groupP], scored_tags := ["p"], region_mults := [{}] }

/-- Claim C1 witness fixture: entrant 31 is disqualified once; an
unrelated entrant 2 participates. -/
def tournWDq : Tournament :=
  { baseTourn with
    participants := [⟨2, "x"⟩],
    dq_list := [(31, ⟨31, "P"⟩, 1)],
    total_entrants := 2 }

/-- Claim C1 witness fixture: the computed result. -/
def resWDq : TournamentTieringResult :=
  (Tournament.calculate_tier envWDq tournWDq).getD emptyResult

/-- The DQ'd-valued entry `calculate_tier` records for a disqualified
entrant `kv` whose registry value is `pv` (the appended
`DisqualificationValue` of the DQ loop). -/
def dqEntry (t : Tournament) (kv : Int × Entrant × Nat) (pv : PlayerValue) :
    DisqualificationValue :=
  { value := DqInner.counted
      { player_value := pv,
        points := pv.points + (if t.is_invitational then pv.invitational_val else 0),
        alt_tag := kv.2.1.tag },
    dqs := kv.2.2 }

/-- Claim C6 witness fixture: two potential candidates for id 3 (10 and
7 points), one for id 4 (2 points), and one DQ'd valued entry (id 8, 6
points, 2 DQs). -/
def resMixed : TournamentTieringResult :=
  { emptyResult with
    score := 40,
    potential := [PotentialEntry.pmatch ⟨"p3", 3, 10, "", "p3", 0⟩,
                  PotentialEntry.pmatch ⟨"p3b", 3, 7, "", "p3b", 0⟩,
                  PotentialEntry.pmatch ⟨"p4", 4, 2, "", "p4", 0⟩],
    dqs := [{ value := DqInner.counted
                { player_value := mkValue (Ident.num 8) "d8" 6, points := 6,
                  alt_tag := "d8" },
              dqs := 2 }] }

/-- Claim C5 witness fixture: a result meeting the strict criteria
(score 300 ≥ 250 with two valued participants) whose DQ'd entry has
non-negative points. -/
def resStrict : TournamentTieringResult :=
  { emptyResult with
    score := 300,
    entrants := 10,
    values := [{ player_value := mkValue (Ident.num 1) "A" 150, points := 150,
                 alt_tag := "A" },
               { player_value := mkValue (Ident.num 2) "B" 150, points := 150,
                 alt_tag := "B" }],
    dqs := [{ value := DqInner.counted
                { player_value := mkValue (Ident.num 9) "C" 5, points := 5,
                  alt_tag := "C" },
              dqs := 1 }] }

/-! Theorems. -/

/-- Claim C9 (code bug): the reverse-geocoding loop retries a fixed small
number of times (five attempts, the last consulted index being 4), but
when every attempt fails, the loop swallows the errors and returns with
the location unset (`none`) instead of propagating the last error to the
caller. -/
theorem geocode_retry_exhaustion_swallowed :
    gather_location_info (fun _ => none) = none ∧
    gather_location_info (fun i => if i = 4 then some ({} : Address) else none) = some {} ∧
    gather_location_info (fun i => if i = 5 then some ({} : Address) else none) = none :=
  ⟨rfl, rfl, rfl⟩

/-- Claim C7 counterexample: with a completed non-exhibition phase and a
disqualified id not among the participants, `gather_entrant_counts` still
reports the "unknown" sentinel `-1` (the derived tally, 1, is visible
only through `total_entrants = 1 + 1`), contradicting the claim that a
completed phase yields the tally instead of the sentinel. -/
theorem gather_sentinel_despite_completed_phase :
    check_phase_completed phasesC7 = true ∧
    (gather_entrant_counts phasesC7 dqDataC7 []).total_dqs = -1 ∧
    (gather_entrant_counts phasesC7 dqDataC7 []).total_entrants = 2 :=
  ⟨rfl, rfl, rfl⟩

/-- Claim C7 amended: `gather_entrant_counts` always emits the sentinel
`-1` as the DQ count — the final unconditional `self.total_dqs = -1`
(source line 389) overwrites the derived tally even when a non-exhibition
phase has completed; the tally still feeds `total_entrants`. -/
theorem gather_entrant_counts_always_sentinel
    (phases : List Phase) (dqData : List (Int × Entrant × Nat) × List Entrant)
    (roster : List Entrant) :
    (gather_entrant_counts phases dqData roster).total_dqs = -1 := by
  unfold gather_entrant_counts
  by_cases h : check_phase_completed phases = true <;> simp [h]

/-- Claim C4 counterexample: for a rule with a subdivision wildcard and a
populated, matching county field, the source computes specificity 3
(2 for the country + 1 for the wildcard), not the 5 (… + 2 for the county
match) that the claim's description assigns: the county/city step is not
evaluated under a subdivision wildcard. -/
theorem county_city_wildcard_divergence :
    RegionValue.matchScore regionC4 addressC4 = 3 ∧
    RegionValue.matchClaimed regionC4 addressC4 = 5 :=
  ⟨rfl, rfl⟩

/-- Claim C4 amended: after a country match, the county/city step is
evaluated only when the subdivision code matched exactly (the +2 branch);
when the rule's subdivision requirement is a wildcard, only +1 is added
and the county/city fields are ignored.  `matchAmended` spells that out
additively and agrees with the source everywhere. -/
theorem region_match_county_city_needs_exact_subdivision
    (r : RegionValue) (address : Address) :
    r.matchScore address = r.matchAmended address := by
  unfold RegionValue.matchScore RegionValue.matchAmended
  split_ifs <;> simp_all <;> first
    | omega
    | (split_ifs <;> omega)

/-- The boolean timeframe test of the source agrees with the half-open
window containment of the spec. -/
lemma is_within_timeframe_iff (v : PlayerValue) (d : Date) :
    v.is_within_timeframe d = true ↔ windowContains v d := by
  unfold PlayerValue.is_within_timeframe windowContains
  cases v.start_time <;> cases v.end_time <;> simp

/-- On a list sorted descending by points, `find?` returns an element of
maximal points among those satisfying the predicate. -/
lemma find?_pairwise_max {l : List PlayerValue} {p : PlayerValue → Bool} {v : PlayerValue}
    (hs : List.Pairwise (fun a b => b.points ≤ a.points) l)
    (h : l.find? p = some v) :
    ∀ w ∈ l, p w = true → w.points ≤ v.points := by
  induction l with
  | nil => simp at h
  | cons a l ih =>
    rw [List.find?_cons] at h
    rcases List.pairwise_cons.mp hs with ⟨ha, hl⟩
    cases hpa : p a with
    | true =>
      rw [hpa] at h
      injection h with h
      subst h
      intro w hw _
      rw [List.mem_cons] at hw
      rcases hw with rfl | hw
      · exact le_refl _
      · exact ha w hw
    | false =>
      rw [hpa] at h
      intro w hw hpw
      rw [List.mem_cons] at hw
      rcases hw with rfl | hw
      · rw [hpw] at hpa; exact absurd hpa (by simp)
      · exact ih hl h w hw hpw

/-- Membership is preserved by the stable insertion step. -/
lemma mem_insertLe {α : Type} (le : α → α → Bool) (a x : α) (l : List α) :
    x ∈ insertLe le a l ↔ x = a ∨ x ∈ l := by
  induction l with
  | nil => simp [insertLe]
  | cons b bs ih =>
    unfold insertLe
    by_cases h : le a b = true
    · simp [h]
    · simp [h, ih]
      tauto

/-- Membership is preserved by the stable sort. -/
lemma mem_pySort {α : Type} (le : α → α → Bool) (x : α) (l : List α) :
    x ∈ pySort le l ↔ x ∈ l := by
  induction l with
  | nil => simp [pySort]
  | cons a as ih => simp [pySort, mem_insertLe, ih]

/-- Stable insertion preserves sortedness, for a total transitive
comparison. -/
lemma pairwise_insertLe {α : Type} {le : α → α → Bool}
    (htrans : ∀ a b c, le a b = true → le b c = true → le a c = true)
    (htot : ∀ a b, le a b = true ∨ le b a = true)
    (a : α) {l : List α} (h : List.Pairwise (fun x y => le x y = true) l) :
    List.Pairwise (fun x y => le x y = true) (insertLe le a l) := by
  induction l with
  | nil => simp [insertLe]
  | cons b bs ih =>
    unfold insertLe
    rcases List.pairwise_cons.mp h with ⟨hb, hbs⟩
    by_cases hab : le a b = true
    · rw [if_pos hab]
      refine List.pairwise_cons.mpr ⟨?_, h⟩
      intro x hx
      rw [List.mem_cons] at hx
      rcases hx with rfl | hx
      · exact hab
      · exact htrans a b x hab (hb x hx)
    · rw [if_neg hab]
      refine List.pairwise_cons.mpr ⟨?_, ih hbs⟩
      intro x hx
      rcases (mem_insertLe le a x bs).mp hx with hxa | hx
      · rw [hxa]
        rcases htot a b with h' | h'
        · exact absurd h' hab
        · exact h'
      · exact hb x hx

/-- The stable sort produces a sorted list, for a total transitive
comparison. -/
lemma pairwise_pySort {α : Type} {le : α → α → Bool}
    (htrans : ∀ a b c, le a b = true → le b c = true → le a c = true)
    (htot : ∀ a b, le a b = true ∨ le b a = true)
    (l : List α) :
    List.Pairwise (fun x y => le x y = true) (pySort le l) := by
  induction l with
  | nil => simp [pySort]
  | cons a as ih => exact pairwise_insertLe htrans htot a ih

/-- The sorted-descending invariant claimed by the spec for
`PlayerValueGroup.values`: it holds after every `add_value`,
unconditionally. -/
lemma add_value_values_sorted (g : PlayerValueGroup) (points : Int) (note : String)
    (s e : Option Date) :
    List.Pairwise (fun a b => b.points ≤ a.points)
      ((g.add_value points note s e).values) := by
  have key : ∀ l : List PlayerValue,
      List.Pairwise (fun a b => b.points ≤ a.points)
        (pySort (fun a b => decide (b.points ≤ a.points)) l) := by
    intro l
    have htr : ∀ a b c : PlayerValue, decide (b.points ≤ a.points) = true →
        decide (c.points ≤ b.points) = true → decide (c.points ≤ a.points) = true := by
      intro a b c h1 h2
      simp only [decide_eq_true_eq] at h1 h2 ⊢
      exact le_trans h2 h1
    have hto : ∀ a b : PlayerValue, decide (b.points ≤ a.points) = true ∨
        decide (a.points ≤ b.points) = true := by
      intro a b
      simp only [decide_eq_true_eq]
      exact le_total b.points a.points
    have h := pairwise_pySort htr hto l
    exact h.imp (fun hx => of_decide_eq_true hx)
  unfold PlayerValueGroup.add_value
  exact key _

/-- Claim C2: for a group whose stored values are sorted descending by
points (the invariant `add_value` maintains, cf.
`add_value_values_sorted`), `retrieve_value` returns a stored value whose
half-open window contains the query date with maximal points among all
stored values whose window contains it, and returns `none` exactly when
no stored value's window contains the date. -/
theorem retrieve_value_returns_best_valid (g : PlayerValueGroup) (t : Tournament)
    (hs : List.Pairwise (fun a b => b.points ≤ a.points) g.values) :
    (∀ v, g.retrieve_value t = some v →
      v ∈ g.values ∧ windowContains v t.start_time ∧
        ∀ w ∈ g.values, windowContains w t.start_time → w.points ≤ v.points) ∧
    (g.retrieve_value t = none ↔ ∀ w ∈ g.values, ¬ windowContains w t.start_time) := by
  unfold PlayerValueGroup.retrieve_value
  constructor
  · intro v hv
    refine ⟨List.mem_of_find?_eq_some hv, ?_, ?_⟩
    · have hp : v.is_within_timeframe t.start_time = true := by
        simpa using List.find?_some hv
      exact (is_within_timeframe_iff v t.start_time).mp hp
    · intro w hw hww
      exact find?_pairwise_max hs hv w hw ((is_within_timeframe_iff w t.start_time).mpr hww)
  · rw [List.find?_eq_none]
    constructor
    · intro h w hw hww
      exact h w hw ((is_within_timeframe_iff w t.start_time).mpr hww)
    · intro h w hw hww
      exact h w hw ((is_within_timeframe_iff w t.start_time).mp hww)

/-- Witness for claim C2 at a concrete group and date: on date 25 the
windowed 50-point value is expired and the unwindowed 30-point value is
returned. -/
theorem retrieve_value_returns_best_valid_witness :
    (∀ v, groupWindowed.retrieve_value tournAt25 = some v →
      v ∈ groupWindowed.values ∧ windowContains v tournAt25.start_time ∧
        ∀ w ∈ groupWindowed.values, windowContains w tournAt25.start_time →
          w.points ≤ v.points) ∧
    (groupWindowed.retrieve_value tournAt25 = none ↔
      ∀ w ∈ groupWindowed.values, ¬ windowContains w tournAt25.start_time) :=
  retrieve_value_returns_best_valid groupWindowed tournAt25
    (by simp [groupWindowed, List.pairwise_cons])

/-- The region-selection loop is the fold of `selStep`. -/
lemma selectRegion_eq_foldl (l : List RegionValue) (a : Address) :
    selectRegion l a = l.foldl (selStep a) (none, 0) := rfl

/-- Invariant of the region-selection fold: either no rule beats the
incumbent (the accumulator is returned unchanged and every rule scores at
most the incumbent score), or the result is the first rule attaining the
final score — every earlier rule scores strictly less, every later rule
at most as much. -/
lemma selStep_foldl_spec (a : Address) (l : List RegionValue)
    (acc : Option RegionValue × Nat) :
    (l.foldl (selStep a) acc = acc ∧ ∀ r ∈ l, r.matchScore a ≤ acc.2) ∨
    (∃ l₁ r l₂, l = l₁ ++ r :: l₂ ∧
      l.foldl (selStep a) acc = (some r, r.matchScore a) ∧
      acc.2 < r.matchScore a ∧
      (∀ x ∈ l₁, x.matchScore a < r.matchScore a) ∧
      (∀ x ∈ l₂, x.matchScore a ≤ r.matchScore a)) := by
  induction l generalizing acc with
  | nil => left; exact ⟨rfl, by simp⟩
  | cons b bs ih =>
    rw [List.foldl_cons]
    by_cases hb : acc.2 < b.matchScore a
    · have hstep : selStep a acc b = (some b, b.matchScore a) := by
        unfold selStep; rw [if_pos hb]
      rw [hstep]
      rcases ih (some b, b.matchScore a) with ⟨heq, hle⟩ | ⟨l₁, r, l₂, hsplit, hout, hacc, hlt, hle⟩
      · right
        refine ⟨[], b, bs, by simp, by rw [heq], hb, by simp, ?_⟩
        intro x hx
        simpa using hle x hx
      · right
        refine ⟨b :: l₁, r, l₂, by rw [hsplit]; rfl, hout, ?_, ?_, hle⟩
        · calc acc.2 < b.matchScore a := hb
            _ < r.matchScore a := by simpa using hacc
        · intro x hx
          rw [List.mem_cons] at hx
          rcases hx with rfl | hx
          · simpa using hacc
          · exact hlt x hx
    · have hstep : selStep a acc b = acc := by
        unfold selStep; rw [if_neg hb]
      rw [hstep]
      rcases ih acc with ⟨heq, hle⟩ | ⟨l₁, r, l₂, hsplit, hout, hacc, hlt, hle⟩
      · left
        refine ⟨heq, ?_⟩
        intro x hx
        rw [List.mem_cons] at hx
        rcases hx with rfl | hx
        · exact Nat.le_of_not_lt hb
        · exact hle x hx
      · right
        refine ⟨b :: l₁, r, l₂, by rw [hsplit]; rfl, hout, hacc, ?_, hle⟩
        intro x hx
        rw [List.mem_cons] at hx
        rcases hx with rfl | hx
        · exact lt_of_le_of_lt (Nat.le_of_not_lt hb) hacc
        · exact hlt x hx

/-- Case analysis for `selectRegion` from a fresh accumulator: either
every rule scores 0 and no rule is selected, or the first rule attaining
the maximal (positive) score is selected. -/
lemma selectRegion_cases (l : List RegionValue) (a : Address) :
    (selectRegion l a = (none, 0) ∧ ∀ r ∈ l, r.matchScore a = 0) ∨
    (∃ l₁ r l₂, l = l₁ ++ r :: l₂ ∧
      selectRegion l a = (some r, r.matchScore a) ∧
      0 < r.matchScore a ∧
      (∀ x ∈ l₁, x.matchScore a < r.matchScore a) ∧
      (∀ x ∈ l₂, x.matchScore a ≤ r.matchScore a)) := by
  rw [selectRegion_eq_foldl]
  rcases selStep_foldl_spec a l (none, 0) with ⟨heq, hle⟩ | hsplit
  · left
    refine ⟨heq, ?_⟩
    intro r hr
    have := hle r hr
    omega
  · right
    exact hsplit

/-- Claim C8: whenever the loaded rule set contains the universal
fallback rule (empty country code, matching every address with
specificity 1), `calculate_tier` selects some region rule for every
address, so the no-applicable-region failure (`best_region = None`
followed by an attribute error) is unreachable. -/
theorem fallback_rule_ensures_region_selected (env : Env) (t : Tournament)
    (h : ∃ r ∈ env.region_mults, r.country_code = "") :
    (Tournament.calculate_tier env t).isSome = true := by
  obtain ⟨r0, hr0mem, hr0⟩ := h
  have h1 : r0.matchScore t.address = 1 := by
    unfold RegionValue.matchScore
    rw [if_pos hr0]
  unfold Tournament.calculate_tier
  rcases selectRegion_cases env.region_mults t.address with ⟨_, hzero⟩ | ⟨_, r, _, _, hout, _, _, _⟩
  · have := hzero r0 hr0mem
    rw [h1] at this
    exact absurd this one_ne_zero
  · rw [hout]
    rfl

/-- Witness for claim C8: with only the fallback rule loaded, the tier of
a concrete tournament is computed (no missing-region failure). -/
theorem fallback_rule_ensures_region_selected_witness :
    (Tournament.calculate_tier envFallbackOnly baseTourn).isSome = true :=
  fallback_rule_ensures_region_selected envFallbackOnly baseTourn ⟨{}, by simp [envFallbackOnly], rfl⟩

/-- Claim C3: the region stored in a computed result is a loaded rule of
maximal specificity for the tournament's address; every rule seen before
it scores strictly less (so an incumbent is replaced only on a strictly
higher score and the first rule seen wins ties), and the realized score
is built starting from `entrants * multiplier` of that selected rule (its
floors likewise feed `should_count` / `should_count_strict` through
`res.region`). -/
theorem calculate_tier_selects_max_specificity_region (env : Env) (t : Tournament)
    (res : TournamentTieringResult)
    (h : Tournament.calculate_tier env t = some res) :
    res.region ∈ env.region_mults ∧
    (∀ r ∈ env.region_mults, r.matchScore t.address ≤ res.region.matchScore t.address) ∧
    (∃ l₁ l₂, env.region_mults = l₁ ++ res.region :: l₂ ∧
      ∀ r ∈ l₁, r.matchScore t.address < res.region.matchScore t.address) ∧
    res.score = (t.participants.foldl (processParticipant env t)
      { total_score := (t.total_entrants : Int) * res.region.multiplier,
        valued_participants := [], potential_matches := [] }).total_score := by
  unfold Tournament.calculate_tier at h
  rcases selectRegion_cases env.region_mults t.address with ⟨hout, _⟩ |
      ⟨l₁, r, l₂, hsplit, hout, _, hlt, hle⟩
  · rw [hout] at h
    exact absurd h (by simp)
  · rw [hout] at h
    simp only [Option.some.injEq] at h
    subst h
    refine ⟨?_, ?_, ⟨l₁, l₂, hsplit, hlt⟩, rfl⟩
    · rw [hsplit]
      exact List.mem_append.mpr (Or.inr (List.mem_cons_self r l₂))
    · intro x hx
      rw [hsplit] at hx
      rw [List.mem_append, List.mem_cons] at hx
      rcases hx with hx | hx | hx
      · exact le_of_lt (hlt x hx)
      · rw [hx]
      · exact hle x hx

/-- Witness for claim C3 at a concrete environment: with the fallback
rule and a `us` rule loaded and a `us` address, the computed result's
region satisfies the maximality and first-strict-improvement properties. -/
theorem calculate_tier_selects_max_specificity_region_witness :
    resTwoRules.region ∈ envTwoRules.region_mults ∧
    (∀ r ∈ envTwoRules.region_mults,
      r.matchScore tournUs.address ≤ resTwoRules.region.matchScore tournUs.address) ∧
    (∃ l₁ l₂, envTwoRules.region_mults = l₁ ++ resTwoRules.region :: l₂ ∧
      ∀ r ∈ l₁, r.matchScore tournUs.address < resTwoRules.region.matchScore tournUs.address) ∧
    resTwoRules.score = (tournUs.participants.foldl (processParticipant envTwoRules tournUs)
      { total_score := (tournUs.total_entrants : Int) * resTwoRules.region.multiplier,
        valued_participants := [], potential_matches := [] }).total_score :=
  calculate_tier_selects_max_specificity_region envTwoRules tournUs resTwoRules rfl

/-- Claim C10: a non-disqualified entrant whose player id has a registry
group but whose group has no value valid on the event date contributes
nothing at all to the computed result — removing that entrant from the
participant list yields the identical result (no score contribution, no
valued-participant line, no potential-match line), even when the
entrant's lowercased tag appears in the global tag set: the tag fallback
is an `elif`, attempted only for ids absent from the registry. -/
theorem registry_id_without_valid_value_records_nothing (env : Env) (t : Tournament)
    (l₁ l₂ : List Entrant) (p : Entrant) (g : PlayerValueGroup)
    (hp : t.participants = l₁ ++ p :: l₂)
    (hdq : dqContains t.dq_list p.id_ = false)
    (hg : lookupGroup env.scored_players p.id_ = some g)
    (hv : g.retrieve_value t = none) :
    Tournament.calculate_tier env t =
      Tournament.calculate_tier env { t with participants := l₁ ++ l₂ } := by
  have hstep : ∀ st, processParticipant env t st p = st := by
    intro st
    simp [processParticipant, hdq, hg, hv]
  have hfun : processParticipant env ({ t with participants := l₁ ++ l₂ }) =
      processParticipant env t := rfl
  have hfun2 : processDq env ({ t with participants := l₁ ++ l₂ }) =
      processDq env t := rfl
  unfold Tournament.calculate_tier
  dsimp only
  rcases hsel : selectRegion env.region_mults t.address with ⟨o, m⟩
  cases o with
  | none => rfl
  | some br =>
    dsimp only
    rw [hp, hfun, hfun2, List.foldl_append, List.foldl_append, List.foldl_cons, hstep]

/-- Witness for claim C10 at a concrete input: the single entrant has a
registry group, no date-valid value, and a tag in the global tag set;
the computed tier equals the tier with the entrant removed. -/
theorem registry_id_without_valid_value_records_nothing_witness :
    Tournament.calculate_tier envExpired tournExpired =
      Tournament.calculate_tier envExpired { tournExpired with participants := [] ++ [] } :=
  registry_id_without_valid_value_records_nothing envExpired tournExpired [] []
    ⟨21, "Gone"⟩ groupExpired rfl rfl rfl rfl

/-- A value found by `lookupGroup` is a loaded group whose key is the
looked-up numeric id. -/
lemma lookupGroup_some {sp : List PlayerValueGroup} {pid : Int} {g : PlayerValueGroup}
    (hg : lookupGroup sp pid = some g) :
    g ∈ sp ∧ g.id_ = Ident.num pid := by
  refine ⟨List.mem_of_find?_eq_some hg, ?_⟩
  have := List.find?_some hg
  simpa using this

/-- A value returned by `retrieve_value` is one of the group's stored
values. -/
lemma retrieve_value_mem {g : PlayerValueGroup} {t : Tournament} {v : PlayerValue}
    (h : g.retrieve_value t = some v) : v ∈ g.values :=
  List.mem_of_find?_eq_some h

/-- The DQ loop of `calculate_tier` only ever appends to the DQ'd-valued
component of its state. -/
lemma processDq_foldl_sub (env : Env) (t : Tournament)
    (l : List (Int × Entrant × Nat))
    (st : List DisqualificationValue × List PotentialMatchWithDqs) :
    ∀ x ∈ st.1, x ∈ (l.foldl (processDq env t) st).1 := by
  induction l generalizing st with
  | nil => intro x hx; exact hx
  | cons kv l ih =>
    intro x hx
    rw [List.foldl_cons]
    apply ih
    rcases hlg : lookupGroup env.scored_players kv.2.1.id_ with _ | group
    · by_cases htag : pyLower kv.2.1.tag ∈ env.scored_tags <;>
        simp [processDq, hlg, htag, hx]
    · rcases hrv : group.retrieve_value t with _ | pv
      · simpa [processDq, hlg, hrv] using hx
      · simp only [processDq, hlg, hrv]
        exact List.mem_append_left _ hx

/-- Every DQ'd entrant whose id has a registry group with a date-valid
value yields its `DisqualificationValue` (with the accumulated DQ count)
in the DQ-loop output. -/
lemma processDq_foldl_mem (env : Env) (t : Tournament)
    (l : List (Int × Entrant × Nat))
    (st : List DisqualificationValue × List PotentialMatchWithDqs)
    (kv : Int × Entrant × Nat) (hkv : kv ∈ l)
    (group : PlayerValueGroup) (hg : lookupGroup env.scored_players kv.2.1.id_ = some group)
    (pv : PlayerValue) (hv : group.retrieve_value t = some pv) :
    dqEntry t kv pv ∈ (l.foldl (processDq env t) st).1 := by
  induction l generalizing st with
  | nil => cases hkv
  | cons a l ih =>
    rw [List.foldl_cons]
    rw [List.mem_cons] at hkv
    rcases hkv with rfl | hkv
    · apply processDq_foldl_sub
      simp only [processDq, hg, hv]
      exact List.mem_append_right _ (List.mem_singleton.mpr rfl)
    · exact ih (processDq env t st a) hkv

/-- Characterization of the valued participants produced by the
participant loop: every entry beyond the initial state comes from a
non-disqualified participant whose id-matched registry group supplied a
date-valid value. -/
lemma processParticipant_foldl_valued (env : Env) (t : Tournament)
    (l : List Entrant) (st : ScoreState) :
    ∀ cv ∈ (l.foldl (processParticipant env t) st).valued_participants,
      cv ∈ st.valued_participants ∨
      ∃ p ∈ l, dqContains t.dq_list p.id_ = false ∧
        ∃ group, lookupGroup env.scored_players p.id_ = some group ∧
          group.retrieve_value t = some cv.player_value := by
  induction l generalizing st with
  | nil => intro cv h; exact Or.inl h
  | cons a l ih =>
    intro cv h
    rw [List.foldl_cons] at h
    rcases ih (processParticipant env t st a) cv h with hin | ⟨p, hp, hdq, group, hg, hv⟩
    · cases hdqa : dqContains t.dq_list a.id_ with
      | true =>
        have hstep : processParticipant env t st a = st := by
          simp [processParticipant, hdqa]
        rw [hstep] at hin
        exact Or.inl hin
      | false =>
        rcases hlg : lookupGroup env.scored_players a.id_ with _ | group
        · have hstep : (processParticipant env t st a).valued_participants =
              st.valued_participants := by
            by_cases htag : pyLower a.tag ∈ env.scored_tags <;>
              simp [processParticipant, hdqa, hlg, htag]
          rw [hstep] at hin
          exact Or.inl hin
        · rcases hrv : group.retrieve_value t with _ | pv
          · have hstep : processParticipant env t st a = st := by
              simp [processParticipant, hdqa, hlg, hrv]
            rw [hstep] at hin
            exact Or.inl hin
          · have hstep : (processParticipant env t st a).valued_participants =
                st.valued_participants ++
                  [{ player_value := pv,
                     points := pv.points +
                       (if t.is_invitational then pv.invitational_val else 0),
                     alt_tag := a.tag }] := by
              simp [processParticipant, hdqa, hlg, hrv]
            rw [hstep] at hin
            rcases List.mem_append.mp hin with hin | hin
            · exact Or.inl hin
            · right
              refine ⟨a, List.mem_cons_self a l, hdqa, group, hlg, ?_⟩
              rw [List.mem_singleton] at hin
              subst hin
              exact hrv
    · exact Or.inr ⟨p, List.mem_cons_of_mem a hp, hdq, group, hg, hv⟩

/-- Claim C1 counterexample: in a computed result, a disqualified entrant
(id 5, present in the event's DQ map) whose tag matches a registry group
appears among `potential_matches` — refuting both "any match is recorded
only in the DQ'd-valued list" and "no player id present in the event's
DQ map appears among the result's valued_participants or
potential_matches". -/
theorem dq_tag_match_lands_in_potential :
    (Tournament.calculate_tier envDqTag tournDqTag).isSome = true ∧
    ((Tournament.calculate_tier envDqTag tournDqTag).getD emptyResult).potential.any
      (fun pe => match pe with
        | PotentialEntry.pmatch m => dqContains tournDqTag.dq_list m.id_
        | PotentialEntry.dqval _ => false) = true :=
  ⟨rfl, rfl⟩

/-- Claim C1 amended: for every computed result (over a registry whose
stored values carry their group's key, as `read_players` builds them):
an id-matched disqualified entrant with a date-valid value is recorded in
the DQ'd-valued list carrying the accumulated dq count; the DQ loop never
touches the realized score (the score is fixed by the participant loop);
and no id in the DQ map appears among the valued participants.  (A
tag-matched disqualified entrant is recorded in `potential_matches`
instead — see the counterexample.) -/
theorem dq_entrants_never_scored_and_valued_excluded (env : Env) (t : Tournament)
    (res : TournamentTieringResult)
    (h : Tournament.calculate_tier env t = some res)
    (hreg : ∀ g ∈ env.scored_players, ∀ v ∈ g.values, v.id_ = g.id_) :
    (∀ kv ∈ t.dq_list, ∀ group, lookupGroup env.scored_players kv.2.1.id_ = some group →
      ∀ pv, group.retrieve_value t = some pv → dqEntry t kv pv ∈ res.dqs) ∧
    res.score = (t.participants.foldl (processParticipant env t)
      { total_score := (t.total_entrants : Int) * res.region.multiplier,
        valued_participants := [], potential_matches := [] }).total_score ∧
    (∀ cv ∈ res.values, ∀ pid : Int, cv.player_value.id_ = Ident.num pid →
      dqContains t.dq_list pid = false) := by
  unfold Tournament.calculate_tier at h
  rcases hsel : selectRegion env.region_mults t.address with ⟨o, m⟩
  rw [hsel] at h
  cases o with
  | none => exact absurd h (by simp)
  | some br =>
    simp only [Option.some.injEq] at h
    subst h
    refine ⟨?_, rfl, ?_⟩
    · intro kv hkv group hg pv hv
      show _ ∈ sortDqs _
      unfold sortDqs
      rw [mem_pySort]
      exact processDq_foldl_mem env t t.dq_list _ kv hkv group hg pv hv
    · intro cv hcv pid hid
      replace hcv : cv ∈ sortValued _ := hcv
      unfold sortValued at hcv
      rw [mem_pySort] at hcv
      rcases processParticipant_foldl_valued env t t.participants _ cv hcv with hin | hfound
      · cases hin
      · obtain ⟨p, _, hdq, group, hg, hv⟩ := hfound
        obtain ⟨hgmem, hgid⟩ := lookupGroup_some hg
        have hvid : cv.player_value.id_ = group.id_ :=
          hreg group hgmem cv.player_value (retrieve_value_mem hv)
        rw [hid, hgid] at hvid
        have : pid = p.id_ := by
          injection hvid with h'
        rw [this]
        exact hdq

/-- Witness for amended claim C1 at a concrete input: entrant 31 is
disqualified and id-matched; its value lands in the DQ'd-valued list with
its DQ count, the score is the participant-loop total, and no DQ'd id is
among the valued participants. -/
theorem dq_entrants_never_scored_and_valued_excluded_witness :
    (∀ kv ∈ tournWDq.dq_list, ∀ group,
      lookupGroup envWDq.scored_players kv.2.1.id_ = some group →
      ∀ pv, group.retrieve_value tournWDq = some pv →
        dqEntry tournWDq kv pv ∈ resWDq.dqs) ∧
    resWDq.score = (tournWDq.participants.foldl (processParticipant envWDq tournWDq)
      { total_score := (tournWDq.total_entrants : Int) * resWDq.region.multiplier,
        valued_participants := [], potential_matches := [] }).total_score ∧
    (∀ cv ∈ resWDq.values, ∀ pid : Int, cv.player_value.id_ = Ident.num pid →
      dqContains tournWDq.dq_list pid = false) :=
  dq_entrants_never_scored_and_valued_excluded envWDq tournWDq resWDq rfl (by decide)

/-- The key-presence test used by `dictSet` is key membership. -/
lemma dict_any_iff (d : List (Ident × Int)) (k : Ident) :
    d.any (fun kv => decide (kv.1 = k)) = true ↔ k ∈ d.map Prod.fst := by
  rw [List.any_eq_true]
  constructor
  · rintro ⟨kv, hkv, hdec⟩
    rw [List.mem_map]
    exact ⟨kv, hkv, of_decide_eq_true hdec⟩
  · intro hk
    rw [List.mem_map] at hk
    obtain ⟨kv, hkv, hfst⟩ := hk
    exact ⟨kv, hkv, decide_eq_true (by rw [hfst])⟩

/-- Keys after a dictionary update: unchanged for an existing key,
appended for a fresh key. -/
lemma dictSet_keys (d : List (Ident × Int)) (k : Ident) (v : Int) :
    (dictSet d k v).map Prod.fst =
      if k ∈ d.map Prod.fst then d.map Prod.fst else d.map Prod.fst ++ [k] := by
  unfold dictSet
  by_cases h : k ∈ d.map Prod.fst
  · rw [if_pos ((dict_any_iff d k).mpr h), if_pos h, List.map_map]
    apply List.map_congr_left
    intro kv _
    by_cases hk : kv.1 = k <;> simp [hk]
  · rw [if_neg (fun hc => h ((dict_any_iff d k).mp hc)), if_neg h, List.map_append]
    rfl

/-- A dictionary update preserves key distinctness. -/
lemma dictSet_nodup (d : List (Ident × Int)) (k : Ident) (v : Int)
    (h : List.Nodup (d.map Prod.fst)) :
    List.Nodup ((dictSet d k v).map Prod.fst) := by
  rw [dictSet_keys]
  by_cases hk : k ∈ d.map Prod.fst
  · rw [if_pos hk]; exact h
  · rw [if_neg hk]
    rw [List.nodup_append]
    refine ⟨h, List.nodup_singleton k, ?_⟩
    intro a ha hak
    rw [List.mem_singleton] at hak
    subst hak
    exact hk ha

/-- Finding the updated key in the mapped (update-in-place) list. -/
lemma find?_map_update (d : List (Ident × Int)) (k : Ident) (v : Int) :
    (d.map (fun kv => if kv.1 = k then (k, v) else kv)).find? (fun kv => decide (kv.1 = k)) =
      if d.any (fun kv => decide (kv.1 = k)) = true then some (k, v) else none := by
  induction d with
  | nil => simp
  | cons a d ih =>
    by_cases ha : a.1 = k
    · simp [ha]
    · have hmap : List.map (fun kv => if kv.1 = k then (k, v) else kv) (a :: d) =
          a :: List.map (fun kv => if kv.1 = k then (k, v) else kv) d := by
        simp [ha]
      rw [hmap, List.find?_cons_of_neg _ (by simp [ha]), ih, List.any_cons,
        decide_eq_false ha, Bool.false_or]

/-- Finding a different key is unaffected by the update-in-place map. -/
lemma find?_map_skip (d : List (Ident × Int)) (k k' : Ident) (v : Int) (hne : k' ≠ k) :
    (d.map (fun kv => if kv.1 = k then (k, v) else kv)).find? (fun kv => decide (kv.1 = k')) =
      d.find? (fun kv => decide (kv.1 = k')) := by
  induction d with
  | nil => simp
  | cons a d ih =>
    by_cases ha : a.1 = k
    · simp [ha, Ne.symm hne, ih]
    · by_cases ha' : a.1 = k' <;> simp [ha, ha', hne, ih]

/-- Reading back the key just written. -/
lemma dictGet_dictSet_self (d : List (Ident × Int)) (k : Ident) (v : Int) (dflt : Int) :
    dictGet (dictSet d k v) k dflt = v := by
  unfold dictGet dictSet
  by_cases h : d.any (fun kv => decide (kv.1 = k)) = true
  · rw [if_pos h, find?_map_update, if_pos h]
  · rw [if_neg h, List.find?_append]
    have hn : d.find? (fun kv => decide (kv.1 = k)) = none := by
      rw [List.find?_eq_none]
      intro x hx hdec
      exact h (List.any_eq_true.mpr ⟨x, hx, hdec⟩)
    rw [hn]
    simp

/-- Reading any other key after a write. -/
lemma dictGet_dictSet_ne (d : List (Ident × Int)) (k k' : Ident) (v : Int) (dflt : Int)
    (hne : k' ≠ k) :
    dictGet (dictSet d k v) k' dflt = dictGet d k' dflt := by
  unfold dictGet dictSet
  by_cases h : d.any (fun kv => decide (kv.1 = k)) = true
  · rw [if_pos h, find?_map_skip _ _ _ _ hne]
  · rw [if_neg h, List.find?_append]
    rcases hf : d.find? (fun kv => decide (kv.1 = k')) with _ | kv
    · simp [Ne.symm hne]
    · simp [hf]

/-- In a dictionary with distinct keys, lookup of a member's key returns
its value. -/
lemma mem_dict_value : ∀ (d : List (Ident × Int)), List.Nodup (d.map Prod.fst) →
    ∀ kv ∈ d, dictGet d kv.1 0 = kv.2 := by
  intro d
  induction d with
  | nil => intro _ kv h; cases h
  | cons a d ih =>
    intro hnd kv hkv
    rw [List.map_cons, List.nodup_cons] at hnd
    obtain ⟨hana, hd⟩ := hnd
    rw [List.mem_cons] at hkv
    rcases hkv with rfl | hkv
    · unfold dictGet
      rw [List.find?_cons]
      simp
    · have ha : a.1 ≠ kv.1 := by
        intro he
        exact hana (he ▸ List.mem_map.mpr ⟨kv, hkv, rfl⟩)
      unfold dictGet
      rw [List.find?_cons]
      rw [decide_eq_false ha]
      exact ih hd kv hkv

/-- A dictionary of non-negative values reads non-negative (with default
0). -/
lemma dictGet_nonneg (d : List (Ident × Int)) (hd : ∀ kv ∈ d, 0 ≤ kv.2) (k : Ident) :
    0 ≤ dictGet d k 0 := by
  rcases hf : d.find? (fun kv => decide (kv.1 = k)) with _ | kv
  · simp [dictGet, hf]
  · have := hd kv (List.mem_of_find?_eq_some hf)
    simpa [dictGet, hf] using this

/-- Writing a non-negative value preserves value non-negativity. -/
lemma dictSet_preserves_nonneg (d : List (Ident × Int)) (k : Ident) (v : Int)
    (hv : 0 ≤ v) (hd : ∀ kv ∈ d, 0 ≤ kv.2) :
    ∀ kv ∈ dictSet d k v, 0 ≤ kv.2 := by
  intro kv hkv
  unfold dictSet at hkv
  by_cases h : d.any (fun kv => decide (kv.1 = k)) = true
  · rw [if_pos h] at hkv
    rw [List.mem_map] at hkv
    obtain ⟨a, ha, hfa⟩ := hkv
    by_cases hak : a.1 = k
    · rw [← hfa]
      simpa [hak] using hv
    · rw [← hfa]
      simpa [hak] using hd a ha
  · rw [if_neg h] at hkv
    rw [List.mem_append] at hkv
    rcases hkv with hkv | hkv
    · exact hd kv hkv
    · rw [List.mem_singleton] at hkv
      subst hkv
      exact hv

/-- One potential-dictionary step, seen through lookup: the updated key
takes the max with the incumbent (default 0), other keys are untouched. -/
lemma dictGet_potStep (d : List (Ident × Int)) (pe : PotentialEntry) (k : Ident) :
    dictGet (potStep d pe) k 0 =
      if pe.key = k then max pe.pointsOf (dictGet d k 0) else dictGet d k 0 := by
  cases pe with
  | dqval dv =>
    simp only [potStep, PotentialEntry.key, PotentialEntry.pointsOf]
    by_cases hk : dv.value.idOf = k
    · subst hk
      rw [dictGet_dictSet_self, if_pos rfl]
    · rw [dictGet_dictSet_ne _ _ _ _ _ (fun h => hk h.symm), if_neg hk]
  | pmatch pm =>
    simp only [potStep, PotentialEntry.key, PotentialEntry.pointsOf]
    by_cases hk : Ident.num pm.id_ = k
    · subst hk
      rw [dictGet_dictSet_self, if_pos rfl]
    · rw [dictGet_dictSet_ne _ _ _ _ _ (fun h => hk h.symm), if_neg hk]

/-- Unfolding `bestFrom` over a cons. -/
lemma bestFrom_cons (e : PotentialEntry) (l : List PotentialEntry) (b : Int) (k : Ident) :
    bestFrom (e :: l) b k =
      bestFrom l (if e.key = k then max e.pointsOf b else b) k := rfl

/-- The lookup of the finished potential dictionary is the per-id best,
folded from the incumbent value. -/
lemma potDict_foldl_get : ∀ (l : List PotentialEntry) (d : List (Ident × Int)) (k : Ident),
    dictGet (l.foldl potStep d) k 0 = bestFrom l (dictGet d k 0) k := by
  intro l
  induction l with
  | nil => intro d k; rfl
  | cons e l ih =>
    intro d k
    rw [List.foldl_cons, ih, bestFrom_cons, dictGet_potStep]

/-- Keys after one potential-dictionary step. -/
lemma potStep_keys (d : List (Ident × Int)) (e : PotentialEntry) :
    (potStep d e).map Prod.fst =
      if e.key ∈ d.map Prod.fst then d.map Prod.fst else d.map Prod.fst ++ [e.key] := by
  cases e with
  | dqval dv =>
    simp only [potStep, PotentialEntry.key]
    exact dictSet_keys _ _ _
  | pmatch pm =>
    simp only [potStep, PotentialEntry.key]
    exact dictSet_keys _ _ _

/-- The keys of the finished potential dictionary are exactly the keys of
the processed entries (plus the incumbent keys). -/
lemma potDict_foldl_keys : ∀ (l : List PotentialEntry) (d : List (Ident × Int)) (k : Ident),
    (k ∈ (l.foldl potStep d).map Prod.fst ↔
      k ∈ d.map Prod.fst ∨ k ∈ l.map PotentialEntry.key) := by
  intro l
  induction l with
  | nil => intro d k; simp
  | cons e l ih =>
    intro d k
    rw [List.foldl_cons, ih, potStep_keys]
    by_cases he : e.key ∈ d.map Prod.fst
    · rw [if_pos he]
      simp only [List.map_cons, List.mem_cons]
      constructor
      · rintro (h | h)
        · exact Or.inl h
        · exact Or.inr (Or.inr h)
      · rintro (h | h | h)
        · exact Or.inl h
        · rw [h]; exact Or.inl he
        · exact Or.inr h
    · rw [if_neg he]
      simp only [List.map_cons, List.mem_cons, List.mem_append, List.mem_singleton]
      tauto

/-- The finished potential dictionary has distinct keys. -/
lemma potDict_foldl_nodup : ∀ (l : List PotentialEntry) (d : List (Ident × Int)),
    List.Nodup (d.map Prod.fst) → List.Nodup ((l.foldl potStep d).map Prod.fst) := by
  intro l
  induction l with
  | nil => intro d h; exact h
  | cons e l ih =>
    intro d h
    rw [List.foldl_cons]
    apply ih
    cases e with
    | dqval dv => exact dictSet_nodup _ _ _ h
    | pmatch pm => exact dictSet_nodup _ _ _ h

/-- All values of the potential dictionary are non-negative (the first
write for a key takes a max with the 0 default). -/
lemma potDict_foldl_nonneg : ∀ (l : List PotentialEntry) (d : List (Ident × Int)),
    (∀ kv ∈ d, 0 ≤ kv.2) → ∀ kv ∈ l.foldl potStep d, 0 ≤ kv.2 := by
  intro l
  induction l with
  | nil => intro d hd; exact hd
  | cons e l ih =>
    intro d hd
    rw [List.foldl_cons]
    apply ih
    cases e with
    | dqval dv =>
      exact dictSet_preserves_nonneg _ _ _
        (le_trans (dictGet_nonneg d hd _) (le_max_right _ _)) hd
    | pmatch pm =>
      exact dictSet_preserves_nonneg _ _ _
        (le_trans (dictGet_nonneg d hd _) (le_max_right _ _)) hd

/-- All values of the DQ dictionary are non-negative when every DQ'd
entry carries non-negative points (the `CountedValue` branch writes the
points through unguarded). -/
lemma dqDict_foldl_nonneg : ∀ (l : List DisqualificationValue),
    (∀ dq ∈ l, 0 ≤ dq.value.points) →
    ∀ (d : List (Ident × Int)), (∀ kv ∈ d, 0 ≤ kv.2) →
    ∀ kv ∈ l.foldl dqStep d, 0 ≤ kv.2 := by
  intro l
  induction l with
  | nil => intro _ d hd; exact hd
  | cons dq l ih =>
    intro hpts d hd
    rw [List.foldl_cons]
    refine ih (fun x hx => hpts x (List.mem_cons_of_mem _ hx)) _ ?_
    have h0 : 0 ≤ dq.value.points := hpts dq (List.mem_cons_self _ _)
    show ∀ kv ∈ dqStep d dq, 0 ≤ kv.2
    unfold dqStep
    cases hv : dq.value with
    | counted cv =>
      rw [hv] at h0
      exact dictSet_preserves_nonneg _ _ _ h0 hd
    | plain pv =>
      exact dictSet_preserves_nonneg _ _ _
        (le_trans (dictGet_nonneg d hd _) (le_max_right _ _)) hd

/-- With pairwise-distinct DQ'd ids the DQ dictionary is just the list of
per-entry contributions, in order. -/
lemma dqDict_foldl_eq : ∀ (l : List DisqualificationValue) (d : List (Ident × Int)),
    List.Pairwise (fun a b => a.value.idOf ≠ b.value.idOf) l →
    (∀ dq ∈ l, dq.value.idOf ∉ d.map Prod.fst) →
    l.foldl dqStep d = d ++ l.map (fun dq => (dq.value.idOf, dqContrib dq)) := by
  intro l
  induction l with
  | nil => intro d _ _; simp
  | cons dq l ih =>
    intro d hpw hdisj
    rw [List.foldl_cons]
    rw [List.pairwise_cons] at hpw
    obtain ⟨hhead, htail⟩ := hpw
    have hfresh : dq.value.idOf ∉ d.map Prod.fst := hdisj dq (List.mem_cons_self _ _)
    have hany : ¬ (d.any (fun kv => decide (kv.1 = dq.value.idOf)) = true) :=
      fun hc => hfresh ((dict_any_iff _ _).mp hc)
    have hget : dictGet d dq.value.idOf 0 = 0 := by
      unfold dictGet
      have hn : d.find? (fun kv => decide (kv.1 = dq.value.idOf)) = none := by
        rw [List.find?_eq_none]
        intro x hx hdec
        exact hfresh (List.mem_map.mpr ⟨x, hx, of_decide_eq_true hdec⟩)
      rw [hn]
    have hstep : dqStep d dq = d ++ [(dq.value.idOf, dqContrib dq)] := by
      cases hv : dq.value with
      | counted cv =>
        have h3 : dqContrib dq = cv.points := by unfold dqContrib; rw [hv]
        have h1 : dqStep d dq = dictSet d cv.id_ cv.points := by unfold dqStep; rw [hv]
        have hfresh' : cv.id_ ∉ d.map Prod.fst := by
          rw [hv] at hfresh
          simpa [DqInner.idOf] using hfresh
        have hany' : ¬ (d.any (fun kv => decide (kv.1 = cv.id_)) = true) :=
          fun hc => hfresh' ((dict_any_iff _ _).mp hc)
        rw [h1, h3]
        show dictSet d cv.id_ cv.points = d ++ [(cv.id_, cv.points)]
        unfold dictSet
        rw [if_neg hany']
      | plain pv =>
        have h3 : dqContrib dq = max pv.points 0 := by unfold dqContrib; rw [hv]
        have h1 : dqStep d dq = dictSet d pv.id_ (max pv.points (dictGet d pv.id_ 0)) := by
          unfold dqStep; rw [hv]
        have hfresh' : pv.id_ ∉ d.map Prod.fst := by
          rw [hv] at hfresh
          simpa [DqInner.idOf] using hfresh
        have hany' : ¬ (d.any (fun kv => decide (kv.1 = pv.id_)) = true) :=
          fun hc => hfresh' ((dict_any_iff _ _).mp hc)
        have hget' : dictGet d pv.id_ 0 = 0 := by
          rw [hv] at hget
          simpa [DqInner.idOf] using hget
        rw [h1, h3, hget']
        show dictSet d pv.id_ (max pv.points 0) = d ++ [(pv.id_, max pv.points 0)]
        unfold dictSet
        rw [if_neg hany']
    rw [hstep]
    rw [ih (d ++ [(dq.value.idOf, dqContrib dq)]) htail ?hfr]
    · rw [List.map_cons]
      simp
    case hfr =>
      intro x hx
      rw [List.map_append, List.mem_append]
      rintro (h | h)
      · exact hdisj x (List.mem_cons_of_mem _ hx) h
      · simp only [List.map_cons, List.map_nil, List.mem_singleton] at h
        exact (hhead x hx) h.symm

/-- A value never decreases along `bestFrom`. -/
lemma bestFrom_ge_init : ∀ (l : List PotentialEntry) (b : Int) (k : Ident),
    b ≤ bestFrom l b k := by
  intro l
  induction l with
  | nil => intro b k; exact le_refl b
  | cons e l ih =>
    intro b k
    rw [bestFrom_cons]
    by_cases he : e.key = k
    · rw [if_pos he]
      exact le_trans (le_max_right _ _) (ih _ k)
    · rw [if_neg he]
      exact ih b k

/-- The per-id best dominates each matching entry's points. -/
lemma bestFrom_ge_entry : ∀ (l : List PotentialEntry) (b : Int) (k : Ident)
    (e : PotentialEntry), e ∈ l → e.key = k → e.pointsOf ≤ bestFrom l b k := by
  intro l
  induction l with
  | nil => intro b k e he _; cases he
  | cons a l ih =>
    intro b k e he hk
    rw [List.mem_cons] at he
    rw [bestFrom_cons]
    rcases he with rfl | he
    · rw [if_pos hk]
      exact le_trans (le_max_left _ _) (bestFrom_ge_init l _ k)
    · exact ih _ k e he hk

/-- Folding addition of the dictionary values, as a sum. -/
lemma foldl_add_eq : ∀ (l : List (Ident × Int)) (s : Int),
    l.foldl (fun s kv => s + kv.2) s = s + intSum (l.map Prod.snd) := by
  intro l
  induction l with
  | nil => intro s; simp [intSum]
  | cons kv l ih =>
    intro s
    rw [List.foldl_cons, ih]
    simp only [List.map_cons, intSum]
    ring

/-- A sum of non-negative integers is non-negative. -/
lemma intSum_nonneg : ∀ (l : List Int), (∀ x ∈ l, 0 ≤ x) → 0 ≤ intSum l := by
  intro l
  induction l with
  | nil => intro _; exact le_refl 0
  | cons x l ih =>
    intro h
    simp only [intSum]
    have hx := h x (List.mem_cons_self _ _)
    have hl := ih (fun y hy => h y (List.mem_cons_of_mem _ hy))
    omega

/-- A sum of non-negative integers with a positive member is positive. -/
lemma intSum_pos : ∀ (l : List Int), (∀ x ∈ l, 0 ≤ x) → (∃ x ∈ l, 0 < x) →
    0 < intSum l := by
  intro l
  induction l with
  | nil =>
    rintro _ ⟨x, hx, _⟩
    cases hx
  | cons x l ih =>
    rintro h ⟨y, hy, hypos⟩
    simp only [intSum]
    rw [List.mem_cons] at hy
    have hx := h x (List.mem_cons_self _ _)
    rcases hy with rfl | hy
    · have := intSum_nonneg (l.map id) ?_
      · simp at this
        omega
      · intro z hz
        rw [List.mem_map] at hz
        obtain ⟨w, hw, rfl⟩ := hz
        exact h w (List.mem_cons_of_mem _ hw)
    · have := ih (fun z hz => h z (List.mem_cons_of_mem _ hz)) ⟨y, hy, hypos⟩
      omega

/-- The source's `max_potential_score`, written through the named
dictionaries. -/
lemma max_potential_score_eq (r : TournamentTieringResult) :
    r.max_potential_score =
      (dqDict r.dqs).foldl (fun s kv => s + kv.2)
        ((potDict r.potential).foldl (fun s kv => s + kv.2) r.score) := rfl

/-- Folding additions of non-negative values only increases. -/
lemma le_foldl_add (l : List (Ident × Int)) (h : ∀ kv ∈ l, 0 ≤ kv.2) (s : Int) :
    s ≤ l.foldl (fun s kv => s + kv.2) s := by
  rw [foldl_add_eq]
  have hnn : 0 ≤ intSum (l.map Prod.snd) := by
    apply intSum_nonneg
    intro x hx
    rw [List.mem_map] at hx
    obtain ⟨kv, hkv, rfl⟩ := hx
    exact h kv hkv
  omega

/-- The realized score never exceeds the maximum potential score,
provided every DQ'd valued entry carries non-negative points. -/
lemma score_le_max_potential (r : TournamentTieringResult)
    (hdqnn : ∀ dq ∈ r.dqs, 0 ≤ dq.value.points) :
    r.score ≤ r.max_potential_score := by
  rw [max_potential_score_eq]
  have h1 : r.score ≤ (potDict r.potential).foldl (fun s kv => s + kv.2) r.score :=
    le_foldl_add _ (potDict_foldl_nonneg r.potential [] (by intro kv hkv; cases hkv)) _
  have h2 := le_foldl_add (dqDict r.dqs)
    (dqDict_foldl_nonneg r.dqs hdqnn [] (by intro kv hkv; cases hkv))
    ((potDict r.potential).foldl (fun s kv => s + kv.2) r.score)
  exact le_trans h1 h2

/-- Claim C5 counterexample: a result computed by `calculate_tier` over a
registry containing a negative-point disqualified player passes the
strict criteria (score 260 ≥ floor 260 with two valued participants) but
fails the lenient ones (maximum potential 160 < 260 and 10 < 64
entrants), refuting `should_count_strict ⇒ should_count` as stated. -/
theorem strict_without_lenient :
    ((Tournament.calculate_tier envNeg tournNeg).map
      (fun r => (r.should_count_strict, r.should_count))) = some (true, false) := rfl

/-- Claim C5 amended: `should_count_strict` implies `should_count` for
every result whose DQ'd valued entries carry non-negative points (the
DQ dictionary of `max_potential_score` writes a `CountedValue`'s points
through unguarded, so a negative registry value can pull the maximum
potential below the realized score — see the counterexample). -/
theorem should_count_strict_implies_lenient (r : TournamentTieringResult)
    (hdqnn : ∀ dq ∈ r.dqs, 0 ≤ dq.value.points) :
    r.should_count_strict = true → r.should_count = true := by
  simp only [TournamentTieringResult.should_count_strict,
    TournamentTieringResult.should_count, Bool.or_eq_true, Bool.and_eq_true,
    decide_eq_true_eq, NUM_PLAYERS_FLOOR]
  intro h
  rcases h with h | ⟨h1, h2⟩
  · exact Or.inl h
  · right
    have hle := score_le_max_potential r hdqnn
    exact ⟨le_trans h1 hle, by omega⟩

/-- Witness for amended claim C5: a concrete result that meets the strict
criteria, with a non-negative DQ'd entry, also meets the lenient ones. -/
theorem should_count_strict_implies_lenient_witness :
    resStrict.should_count = true :=
  should_count_strict_implies_lenient resStrict (by decide) (by decide)

/-- Claim C6 counterexample: a result with one zero-point potential match
has `max_potential_score` equal to its realized score although the
potential list is non-empty, refuting "equality holds iff there are no
potential matches and no DQ'd valued entries". -/
theorem max_potential_eq_score_with_nonempty_potential :
    resZeroPot.max_potential_score = resZeroPot.score ∧ resZeroPot.potential ≠ [] :=
  ⟨rfl, by simp [resZeroPot]⟩

/-- Claim C6 amended: for a result whose DQ'd ids are pairwise distinct
(as `calculate_tier` produces them — the DQ map is keyed by id) and whose
DQ'd entries carry non-negative points: the maximum potential score is
the realized score plus, per distinct potential id, the single best
candidate points (floored at 0, deduplicated across candidate groups),
plus each DQ'd entry's contribution; hence it dominates the realized
score; equality holds when both lists are empty, and — provided every
potential candidate and every DQ'd entry carries strictly positive
points — only then (a zero-point entry keeps equality with a non-empty
list, see the counterexample). -/
theorem max_potential_score_decomposition (r : TournamentTieringResult)
    (hdqnn : ∀ dq ∈ r.dqs, 0 ≤ dq.value.points)
    (hnd : List.Pairwise (fun a b => a.value.idOf ≠ b.value.idOf) r.dqs) :
    r.max_potential_score =
      r.score + intSum ((potDict r.potential).map Prod.snd) +
        intSum (r.dqs.map dqContrib) ∧
    (∀ kv ∈ potDict r.potential,
      kv.2 = bestPotentialFor r.potential kv.1 ∧ 0 ≤ kv.2) ∧
    (∀ k : Ident, k ∈ (potDict r.potential).map Prod.fst ↔
      k ∈ r.potential.map PotentialEntry.key) ∧
    r.score ≤ r.max_potential_score ∧
    ((r.potential = [] ∧ r.dqs = []) → r.max_potential_score = r.score) ∧
    ((∀ pe ∈ r.potential, 0 < pe.pointsOf) → (∀ dq ∈ r.dqs, 0 < dq.value.points) →
      r.max_potential_score = r.score → r.potential = [] ∧ r.dqs = []) := by
  have hdqd : dqDict r.dqs = r.dqs.map (fun dq => (dq.value.idOf, dqContrib dq)) := by
    have h := dqDict_foldl_eq r.dqs [] hnd (by intro dq _; simp)
    simpa [dqDict] using h
  have hdec : r.max_potential_score =
      r.score + intSum ((potDict r.potential).map Prod.snd) +
        intSum (r.dqs.map dqContrib) := by
    rw [max_potential_score_eq, foldl_add_eq, foldl_add_eq, hdqd, List.map_map]
    have hc : (Prod.snd ∘ fun dq : DisqualificationValue =>
        (dq.value.idOf, dqContrib dq)) = dqContrib := rfl
    rw [hc]
  have hvals : ∀ kv ∈ potDict r.potential,
      kv.2 = bestPotentialFor r.potential kv.1 ∧ 0 ≤ kv.2 := by
    intro kv hkv
    have hnodup := potDict_foldl_nodup r.potential [] (by simp)
    have hval : dictGet (potDict r.potential) kv.1 0 = kv.2 :=
      mem_dict_value _ hnodup kv hkv
    have hget := potDict_foldl_get r.potential [] kv.1
    constructor
    · rw [← hval]
      exact hget
    · exact potDict_foldl_nonneg r.potential [] (by intro x hx; cases hx) kv hkv
  have hkeys : ∀ k : Ident, k ∈ (potDict r.potential).map Prod.fst ↔
      k ∈ r.potential.map PotentialEntry.key := by
    intro k
    have h := potDict_foldl_keys r.potential [] k
    simpa using h
  have hge : r.score ≤ r.max_potential_score := score_le_max_potential r hdqnn
  have hdqcontrib_nonneg : ∀ x ∈ r.dqs.map dqContrib, 0 ≤ x := by
    intro x hx
    rw [List.mem_map] at hx
    obtain ⟨dq, hdq, rfl⟩ := hx
    cases hv : dq.value with
    | counted cv =>
      have h0 := hdqnn dq hdq
      rw [hv] at h0
      simpa [dqContrib, hv] using h0
    | plain pv =>
      simp [dqContrib, hv]
  have hpotvals_nonneg : ∀ x ∈ (potDict r.potential).map Prod.snd, 0 ≤ x := by
    intro x hx
    rw [List.mem_map] at hx
    obtain ⟨kv, hkv, rfl⟩ := hx
    exact (hvals kv hkv).2
  refine ⟨hdec, hvals, hkeys, hge, ?_, ?_⟩
  · rintro ⟨h1, h2⟩
    rw [hdec, h1, h2]
    simp [potDict, intSum]
  · intro hppos hdpos heq
    by_contra hne
    rcases not_and_or.mp hne with hpne | hdne
    · obtain ⟨e, he⟩ : ∃ e, e ∈ r.potential := by
        cases hl : r.potential with
        | nil => exact absurd hl hpne
        | cons e rest => exact ⟨e, hl ▸ List.mem_cons_self e rest⟩
      have hk : e.key ∈ (potDict r.potential).map Prod.fst :=
        (hkeys e.key).mpr (List.mem_map.mpr ⟨e, he, rfl⟩)
      rw [List.mem_map] at hk
      obtain ⟨kv, hkv, hfst⟩ := hk
      have hgee : e.pointsOf ≤ kv.2 := by
        rw [(hvals kv hkv).1]
        exact bestFrom_ge_entry r.potential 0 kv.1 e he hfst.symm
      have hkvpos : 0 < kv.2 := lt_of_lt_of_le (hppos e he) hgee
      have hsum : 0 < intSum ((potDict r.potential).map Prod.snd) :=
        intSum_pos _ hpotvals_nonneg
          ⟨kv.2, List.mem_map.mpr ⟨kv, hkv, rfl⟩, hkvpos⟩
      have hd0 : 0 ≤ intSum (r.dqs.map dqContrib) := intSum_nonneg _ hdqcontrib_nonneg
      rw [hdec] at heq
      omega
    · obtain ⟨dq, hdq⟩ : ∃ dq, dq ∈ r.dqs := by
        cases hl : r.dqs with
        | nil => exact absurd hl hdne
        | cons dq rest => exact ⟨dq, hl ▸ List.mem_cons_self dq rest⟩
      have hpos : 0 < dqContrib dq := by
        have h0 := hdpos dq hdq
        cases hv : dq.value with
        | counted cv =>
          rw [hv] at h0
          simpa [dqContrib, hv] using h0
        | plain pv =>
          rw [hv] at h0
          have : (0 : Int) < pv.points := h0
          simp only [dqContrib, hv]
          exact lt_of_lt_of_le this (le_max_left _ _)
      have hsum : 0 < intSum (r.dqs.map dqContrib) :=
        intSum_pos _ hdqcontrib_nonneg
          ⟨dqContrib dq, List.mem_map.mpr ⟨dq, hdq, rfl⟩, hpos⟩
      have hp0 : 0 ≤ intSum ((potDict r.potential).map Prod.snd) :=
        intSum_nonneg _ hpotvals_nonneg
      rw [hdec] at heq
      omega

/-- Witness for amended claim C6 at a concrete result (two candidates
for id 3, one for id 4, one DQ'd entry): the decomposition, domination
and emptiness equivalences hold. -/
theorem max_potential_score_decomposition_witness :
    resMixed.max_potential_score =
      resMixed.score + intSum ((potDict resMixed.potential).map Prod.snd) +
        intSum (resMixed.dqs.map dqContrib) ∧
    (∀ kv ∈ potDict resMixed.potential,
      kv.2 = bestPotentialFor resMixed.potential kv.1 ∧ 0 ≤ kv.2) ∧
    (∀ k : Ident, k ∈ (potDict resMixed.potential).map Prod.fst ↔
      k ∈ resMixed.potential.map PotentialEntry.key) ∧
    resMixed.score ≤ resMixed.max_potential_score ∧
    ((resMixed.potential = [] ∧ resMixed.dqs = []) →
      resMixed.max_potential_score = resMixed.score) ∧
    ((∀ pe ∈ resMixed.potential, 0 < pe.pointsOf) →
      (∀ dq ∈ resMixed.dqs, 0 < dq.value.points) →
      resMixed.max_potential_score = resMixed.score →
      resMixed.potential = [] ∧ resMixed.dqs = []) :=
  max_potential_score_decomposition resMixed (by decide) (by decide)
